import Mathlib

/-!
Shallow embedding of the gradient editor in `src/src/pages/Index.tsx`.

The source file contains an `Index` page and two variants of the
`GradientEditor` component; the second variant (the one with the
position-sorted `gradientString`, `handleSliderClick`, `handleAngleChange`
and `removeColorStop`) is the one the specification treats as the intended
contract, and the definitions below embed it.

Modelling conventions:
* JavaScript numbers are modelled as `ℚ`. All arithmetic the handlers
  perform on in-range inputs (subtraction, division by a nonzero width,
  multiplication, `Math.min`/`Math.max`, `Math.round`, `%`) is exact on
  the rationals. The IEEE-754 special values produced by a division by
  zero are modelled separately by the `JSNum` type, used for the
  degenerate-geometry analysis of `handleStopDrag`.
* `Array.prototype.sort` (ES2019 and later) is a stable in-place sort by
  the comparator; `(a, b) => a.position - b.position` is the consistent
  comparator for the total preorder `a.position ≤ b.position`. A stable
  sort for a fixed total preorder has a uniquely determined output, so it
  is embedded as `List.insertionSort` (stable), and the in-place mutation
  is made explicit in `renderStep`.
* `uuidv4` is imported in the source from `@/lib/utils`, a file that is
  not part of the repository snapshot; it is modelled from the spec
  (see `uuidv4` below).
-/

/-- A color stop, from `interface ColorStop` in the source:
`{ color: string; position: number; id: string }`. -/
structure ColorStop where
  color : String
  position : ℚ
  id : String
deriving DecidableEq

/-- The mutable state of the editor: `angle` (always set from
`Math.round`, hence an integer) and the `colorStops` array, plus the
counter that drives fresh id generation (see `uuidv4`). -/
structure EditorState where
  angle : ℤ
  stops : List ColorStop
  nextId : ℕ
deriving DecidableEq

/-- Modelled from the spec: `v4 as uuidv4` is imported from
`@/lib/utils`, whose code is not in the repository snapshot. The spec
(§9) requires only a collision-resistant local generator and says a
counter suffices; we model it as a counter rendered as a string of
`n + 1` copies of `'u'`, which is injective and never collides with the
initial ids `"1"` and `"2"`. -/
def uuidv4 (n : ℕ) : String :=
  String.mk (List.replicate (n + 1) 'u')

/-- The initial stop array:
`[{ color: '#4A90E2', position: 0, id: '1' }, { color: '#50E3C2', position: 100, id: '2' }]`. -/
def initialStops : List ColorStop :=
  [⟨"#4A90E2", 0, "1"⟩, ⟨"#50E3C2", 100, "2"⟩]

/-- The initial editor state: `useState(90)` for the angle and
`initialStops` for the stops; the id counter starts above the length of
the initial ids so that generated ids are always fresh. -/
def initialState : EditorState :=
  ⟨90, initialStops, 1⟩

/-- The ordering the comparator `(a, b) => a.position - b.position`
induces on stops. -/
def stopLE (a b : ColorStop) : Prop :=
  a.position ≤ b.position

instance (a b : ColorStop) : Decidable (stopLE a b) :=
  inferInstanceAs (Decidable (a.position ≤ b.position))

instance : IsTotal ColorStop stopLE :=
  ⟨fun a b => le_total a.position b.position⟩

instance : IsTrans ColorStop stopLE :=
  ⟨fun _ _ _ hab hbc => le_trans hab hbc⟩

/-- `colorStops.sort((a, b) => a.position - b.position)`: ES2019
`Array.prototype.sort` is a stable sort, and the numeric comparator is
the consistent comparator of the total preorder `stopLE`; the output of
a stable sort for a fixed total preorder is uniquely determined, so any
stable sort embeds it — `List.insertionSort` is one. -/
def sortStops (l : List ColorStop) : List ColorStop :=
  l.insertionSort stopLE

/-- JavaScript's rendering of a number, restricted to the values this
development evaluates concretely: an integral JS number prints without a
decimal point. (Non-integral rationals are printed as Lean rationals;
no concrete claim below depends on that case.) -/
def numRepr (q : ℚ) : String :=
  if q.den = 1 then toString q.num else toString q

/-- The formatting part of `gradientString`: given an already-ordered
stop list, produce
`` `linear-gradient(${angle}deg, ${stops.map(s => `${s.color} ${s.position}%`).join(', ')})` ``. -/
def mkGradient (angle : ℤ) (stops : List ColorStop) : String :=
  "linear-gradient(" ++ toString angle ++ "deg, " ++
    String.intercalate (", ") (stops.map fun stop => stop.color ++ " " ++ numRepr stop.position ++ "%") ++ ")"

/-- The value of the `gradientString` template literal (second variant,
source lines 222–225): the stops are sorted by position and then
formatted. -/
def gradientString (angle : ℤ) (stops : List ColorStop) : String :=
  mkGradient angle (sortStops stops)

/-- Evaluating the `gradientString` initializer also mutates the state:
`Array.prototype.sort` sorts `colorStops` in place, so after a render the
stored array is the sorted one. `renderStep` returns the produced string
together with the state as it is left behind. -/
def renderStep (s : EditorState) : String × EditorState :=
  (gradientString s.angle s.stops, { s with stops := sortStops s.stops })

/-- The clamp used by `handleStopDrag`:
`Math.max(0, Math.min(100, (x / rect.width) * 100))` with
`x = e.clientX - rect.left`. Faithful to the source for
`rectWidth ≠ 0`; the `rectWidth = 0` IEEE behaviour is modelled by
`pointerToPercentJS` below. -/
def pointerToPercent (clientX rectLeft rectWidth : ℚ) : ℚ :=
  max 0 (min 100 (((clientX - rectLeft) / rectWidth) * 100))

/-- `handleStopDrag` (source lines 227–239): recompute the clamped
percent from the pointer position and replace the position of the stop
whose id matches; all other stops are returned unchanged. -/
def handleStopDrag (clientX rectLeft rectWidth : ℚ) (stopId : String)
    (stops : List ColorStop) : List ColorStop :=
  stops.map fun stop =>
    if stop.id = stopId then { stop with position := pointerToPercent clientX rectLeft rectWidth } else stop

/-- `handleColorChange` (source lines 241–247): replace the color of the
stop whose id matches; all other stops are returned unchanged. -/
def handleColorChange (color : String) (stopId : String)
    (stops : List ColorStop) : List ColorStop :=
  stops.map fun stop =>
    if stop.id = stopId then { stop with color := color } else stop

/-- `handleSliderClick` (source lines 249–263): compute the unclamped
percent `(x / rect.width) * 100`, build a new stop with color `#FFFFFF`
and a fresh id, and append it (`prev => [...prev, newStop]`). -/
def handleSliderClick (clientX rectLeft rectWidth : ℚ) (s : EditorState) : EditorState :=
  { s with
    stops := s.stops ++ [⟨"#FFFFFF", ((clientX - rectLeft) / rectWidth) * 100, uuidv4 s.nextId⟩],
    nextId := s.nextId + 1 }

/-- JavaScript's `%` on numbers, on the rationals: the remainder takes
the sign of the dividend, i.e. `a % b = a - b * trunc(a / b)`. -/
def ratTrunc (q : ℚ) : ℤ :=
  if 0 ≤ q then ⌊q⌋ else ⌈q⌉

/-- `a % b` of JavaScript for rational `a` and `b ≠ 0`. -/
def jsMod (a b : ℚ) : ℚ :=
  a - b * ratTrunc (a / b)

/-- `Math.round`: round half toward positive infinity, `⌊q + 1/2⌋`. -/
def jsRound (q : ℚ) : ℤ :=
  ⌊q + 1 / 2⌋

/-- The normalization in `handleAngleChange`:
`angle = ((angle % 360) + 360) % 360`. -/
def normalizeAngle (a : ℚ) : ℚ :=
  jsMod (jsMod a 360 + 360) 360

/-- `handleAngleChange` (source lines 265–283), as a function of the raw
angle `a = atan2(dy, dx) * (180 / Math.PI) + 90` it computes from the
pointer position: normalize into `[0, 360)` and store `Math.round` of the
result. -/
def handleAngleChange (a : ℚ) (s : EditorState) : EditorState :=
  { s with angle := jsRound (normalizeAngle a) }

/-- `removeColorStop` (source lines 285–291). Returns the new state and
whether the `toast.error('Minimum 2 color stops required')` was shown:
if the current stop count is at most 2, the state is unchanged and the
error is reported; otherwise stops with the given id are filtered out. -/
def removeColorStop (stopId : String) (s : EditorState) : EditorState × Bool :=
  if s.stops.length ≤ 2 then (s, true)
  else ({ s with stops := s.stops.filter fun stop => stop.id ≠ stopId }, false)

/-- The `onChange` handler of the numeric position input (source lines
418–426): it computes the clamped position
`Math.max(0, Math.min(100, Number(e.target.value)))` into a local that is
never used, then calls `handleColorChange(stop.color, stop.id)` — the
stop's existing color and id. -/
def positionInputChange (value : ℚ) (stop : ColorStop)
    (stops : List ColorStop) : List ColorStop :=
  let _position : ℚ := max 0 (min 100 value)
  handleColorChange stop.color stop.id stops

/-- The states reachable from `initialState` by the operations of the
gradient state store: angle updates, slider-click stop insertion, color
updates, drag position updates, and stop removal. -/
inductive Reachable : EditorState → Prop where
  | init : Reachable initialState
  | angle (a : ℚ) {s : EditorState} : Reachable s → Reachable (handleAngleChange a s)
  | add (clientX rectLeft rectWidth : ℚ) {s : EditorState} :
      Reachable s → Reachable (handleSliderClick clientX rectLeft rectWidth s)
  | color (c stopId : String) {s : EditorState} :
      Reachable s → Reachable { s with stops := handleColorChange c stopId s.stops }
  | drag (clientX rectLeft rectWidth : ℚ) (stopId : String) {s : EditorState} :
      Reachable s → Reachable { s with stops := handleStopDrag clientX rectLeft rectWidth stopId s.stops }
  | remove (stopId : String) {s : EditorState} :
      Reachable s → Reachable (removeColorStop stopId s).1

/-- IEEE-754 double values as JavaScript sees them, restricted to what
the degenerate-geometry analysis needs: finite values (kept exact as
rationals), `NaN`, `Infinity` and `-Infinity`. -/
inductive JSNum where
  | num (q : ℚ)
  | nan
  | posInf
  | negInf
deriving DecidableEq

/-- JavaScript subtraction on `JSNum`. -/
def jsSub : JSNum → JSNum → JSNum
  | .num a, .num b => .num (a - b)
  | .nan, _ | _, .nan => .nan
  | .posInf, .posInf => .nan
  | .negInf, .negInf => .nan
  | .posInf, _ => .posInf
  | .negInf, _ => .negInf
  | .num _, .posInf => .negInf
  | .num _, .negInf => .posInf

/-- JavaScript division on `JSNum`: dividing a finite value by (positive)
zero gives `NaN` when the dividend is zero and a signed infinity
otherwise. -/
def jsDiv : JSNum → JSNum → JSNum
  | .num a, .num b =>
    if b = 0 then (if a = 0 then .nan else if 0 < a then .posInf else .negInf)
    else .num (a / b)
  | .nan, _ | _, .nan => .nan
  | .posInf, .posInf | .posInf, .negInf | .negInf, .posInf | .negInf, .negInf => .nan
  | .posInf, .num b => if b < 0 then .negInf else .posInf
  | .negInf, .num b => if b < 0 then .posInf else .negInf
  | .num _, .posInf | .num _, .negInf => .num 0

/-- JavaScript multiplication on `JSNum`. -/
def jsMul : JSNum → JSNum → JSNum
  | .num a, .num b => .num (a * b)
  | .nan, _ | _, .nan => .nan
  | .posInf, .posInf | .negInf, .negInf => .posInf
  | .posInf, .negInf | .negInf, .posInf => .negInf
  | .posInf, .num b | .num b, .posInf =>
    if b = 0 then .nan else if 0 < b then .posInf else .negInf
  | .negInf, .num b | .num b, .negInf =>
    if b = 0 then .nan else if 0 < b then .negInf else .posInf

/-- `Math.min` on two `JSNum` arguments: `NaN` if either argument is
`NaN`, otherwise the smaller in the order `-Infinity < finite < Infinity`. -/
def jsMin : JSNum → JSNum → JSNum
  | .nan, _ | _, .nan => .nan
  | .negInf, _ | _, .negInf => .negInf
  | .posInf, b => b
  | a, .posInf => a
  | .num a, .num b => .num (min a b)

/-- `Math.max` on two `JSNum` arguments: `NaN` if either argument is
`NaN`, otherwise the larger in the order `-Infinity < finite < Infinity`. -/
def jsMax : JSNum → JSNum → JSNum
  | .nan, _ | _, .nan => .nan
  | .posInf, _ | _, .posInf => .posInf
  | .negInf, b => b
  | a, .negInf => a
  | .num a, .num b => .num (max a b)

/-- The position computation of `handleStopDrag` on IEEE semantics:
`Math.max(0, Math.min(100, ((e.clientX - rect.left) / rect.width) * 100))`. -/
def pointerToPercentJS (clientX rectLeft rectWidth : JSNum) : JSNum :=
  jsMax (.num 0) (jsMin (.num 100) (jsMul (jsDiv (jsSub clientX rectLeft) rectWidth) (.num 100)))

/-- A color stop whose position field carries IEEE semantics, for the
degenerate-geometry analysis. -/
structure ColorStopJS where
  color : String
  position : JSNum
  id : String
deriving DecidableEq

/-- `handleStopDrag` on IEEE semantics: the computed position — whatever
special value it is — is written into the matching stop. -/
def handleStopDragJS (clientX rectLeft rectWidth : JSNum) (stopId : String)
    (stops : List ColorStopJS) : List ColorStopJS :=
  stops.map fun stop =>
    if stop.id = stopId then { stop with position := pointerToPercentJS clientX rectLeft rectWidth } else stop

/-! ### Helper lemmas -/

/-- Removing the stops whose id matches an id that is present in a list
with pairwise-distinct ids drops exactly one element. -/
theorem filter_id_length_of_mem {l : List ColorStop} {i : String}
    (hnd : (l.map ColorStop.id).Nodup) {st : ColorStop} (hst : st ∈ l) (hid : st.id = i) :
    (l.filter fun t => t.id ≠ i).length + 1 = l.length := by
  induction l with
  | nil => cases hst
  | cons h tl ih =>
    rw [List.map_cons, List.nodup_cons] at hnd
    rcases List.mem_cons.mp hst with rfl | hmem
    · have htl : ∀ t ∈ tl, t.id ≠ i := by
        intro t ht heq
        exact hnd.1 (by rw [hid, ← heq]; exact List.mem_map_of_mem ColorStop.id ht)
      rw [List.filter_cons_of_neg (by simpa using hid),
        List.filter_eq_self.mpr (fun t ht => by simpa using htl t ht), List.length_cons]
    · have hhd : h.id ≠ i := by
        intro heq
        exact hnd.1 (by rw [heq, ← hid]; exact List.mem_map_of_mem ColorStop.id hmem)
      rw [List.filter_cons_of_pos (by simpa using hhd), List.length_cons, List.length_cons,
        ih hnd.2 hmem]

/-- In a list with pairwise-distinct ids, filtering an id away drops at
most one element. -/
theorem filter_id_length_ge (i : String) {l : List ColorStop}
    (hnd : (l.map ColorStop.id).Nodup) :
    l.length ≤ (l.filter fun t => t.id ≠ i).length + 1 := by
  induction l with
  | nil => simp
  | cons h tl ih =>
    rw [List.map_cons, List.nodup_cons] at hnd
    by_cases hh : h.id = i
    · have htl : ∀ t ∈ tl, t.id ≠ i := by
        intro t ht heq
        exact hnd.1 (by rw [hh, ← heq]; exact List.mem_map_of_mem ColorStop.id ht)
      rw [List.filter_cons_of_neg (by simpa using hh),
        List.filter_eq_self.mpr (fun t ht => by simpa using htl t ht), List.length_cons]
    · rw [List.filter_cons_of_pos (by simpa using hh), List.length_cons, List.length_cons]
      exact Nat.succ_le_succ (ih hnd.2)

/-- The inductive invariant of the gradient state store: at least two
stops, pairwise-distinct ids, and every stored id shorter than the ids
the counter will generate next. -/
def StateInv (s : EditorState) : Prop :=
  2 ≤ s.stops.length ∧ (s.stops.map ColorStop.id).Nodup ∧
    ∀ st ∈ s.stops, st.id.length ≤ s.nextId

/-- A generated id has length one more than the counter value. -/
theorem uuidv4_length (n : ℕ) : (uuidv4 n).length = n + 1 := by
  simp [uuidv4, String.length]

/-- A per-stop update that keeps ids fixed keeps the id column of the
stop list fixed. -/
theorem map_id_map_update (f : ColorStop → ColorStop) (hf : ∀ t, (f t).id = t.id)
    (l : List ColorStop) : (l.map f).map ColorStop.id = l.map ColorStop.id := by
  rw [List.map_map]
  exact List.map_congr_left fun t _ => hf t

/-- Every reachable state satisfies the store invariant. -/
theorem reachable_inv {s : EditorState} (h : Reachable s) : StateInv s := by
  induction h with
  | init => exact ⟨by decide, by decide, by decide⟩
  | @angle a s0 hr ih => exact ih
  | @add clientX rectLeft rectWidth s0 hr ih =>
    obtain ⟨hlen, hnd, hids⟩ := ih
    refine ⟨?_, ?_, ?_⟩
    · simp only [handleSliderClick, List.length_append]
      omega
    · simp only [handleSliderClick, List.map_append, List.map_cons, List.map_nil]
      rw [List.nodup_append]
      refine ⟨hnd, List.nodup_singleton _, ?_⟩
      intro x hx hx1
      rw [List.mem_singleton] at hx1
      obtain ⟨t, ht, hts⟩ := List.mem_map.mp hx
      have h1 := hids t ht
      have h2 := uuidv4_length s0.nextId
      rw [hts, hx1] at h1
      omega
    · intro st hst
      simp only [handleSliderClick] at hst ⊢
      rcases List.mem_append.mp hst with hmem | hnew
      · exact le_trans (hids st hmem) (Nat.le_succ _)
      · rw [List.mem_singleton] at hnew
        subst hnew
        simp [uuidv4_length]
  | @color c stopId s0 hr ih =>
    obtain ⟨hlen, hnd, hids⟩ := ih
    have hf : ∀ t : ColorStop,
        ((fun stop => if stop.id = stopId then { stop with color := c } else stop) t).id = t.id := by
      intro t
      by_cases h : t.id = stopId <;> simp [h]
    refine ⟨by simpa [handleColorChange] using hlen, ?_, ?_⟩
    · show ((s0.stops.map _).map ColorStop.id).Nodup
      rw [map_id_map_update _ hf]
      exact hnd
    · intro st hst
      obtain ⟨t, ht, hts⟩ := List.mem_map.mp hst
      show st.id.length ≤ s0.nextId
      rw [← hts, hf t]
      exact hids t ht
  | @drag clientX rectLeft rectWidth stopId s0 hr ih =>
    obtain ⟨hlen, hnd, hids⟩ := ih
    have hf : ∀ t : ColorStop,
        ((fun stop => if stop.id = stopId then
          { stop with position := pointerToPercent clientX rectLeft rectWidth } else stop) t).id = t.id := by
      intro t
      by_cases h : t.id = stopId <;> simp [h]
    refine ⟨by simpa [handleStopDrag] using hlen, ?_, ?_⟩
    · show ((s0.stops.map _).map ColorStop.id).Nodup
      rw [map_id_map_update _ hf]
      exact hnd
    · intro st hst
      obtain ⟨t, ht, hts⟩ := List.mem_map.mp hst
      show st.id.length ≤ s0.nextId
      rw [← hts, hf t]
      exact hids t ht
  | @remove stopId s0 hr ih =>
    obtain ⟨hlen, hnd, hids⟩ := ih
    by_cases hguard : s0.stops.length ≤ 2
    · rw [removeColorStop, if_pos hguard]
      exact ⟨hlen, hnd, hids⟩
    · rw [removeColorStop, if_neg hguard]
      have hge := filter_id_length_ge stopId hnd
      refine ⟨by simp only []; omega, ?_, ?_⟩
      · exact List.Sublist.nodup (List.Sublist.map ColorStop.id (List.filter_sublist s0.stops)) hnd
      · intro st hst
        exact hids st (List.mem_of_mem_filter hst)

/-- Bounds of the JavaScript remainder by 360: it lies strictly between
`-360` and `360`, and is nonnegative for a nonnegative dividend. -/
theorem jsMod360 (a : ℚ) :
    (-360 < jsMod a 360 ∧ jsMod a 360 < 360) ∧ (0 ≤ a → 0 ≤ jsMod a 360) := by
  have ha : a = 360 * (a / 360) := by field_simp
  rw [jsMod, ratTrunc]
  by_cases hq : 0 ≤ a / 360
  · rw [if_pos hq]
    have h1 : (⌊a / 360⌋ : ℚ) ≤ a / 360 := Int.floor_le _
    have h2 : a / 360 < ⌊a / 360⌋ + 1 := Int.lt_floor_add_one _
    exact ⟨⟨by linarith, by linarith⟩, fun _ => by linarith⟩
  · rw [if_neg hq]
    have h1 : a / 360 ≤ (⌈a / 360⌉ : ℚ) := Int.le_ceil _
    have h2 : (⌈a / 360⌉ : ℚ) < a / 360 + 1 := Int.ceil_lt_add_one _
    refine ⟨⟨by linarith, by linarith⟩, fun ha0 => ?_⟩
    exact absurd (div_nonneg ha0 (by norm_num)) hq

/-- `((a % 360) + 360) % 360` lands in `[0, 360)`. -/
theorem normalizeAngle_bounds (a : ℚ) :
    0 ≤ normalizeAngle a ∧ normalizeAngle a < 360 := by
  have h1 := (jsMod360 a).1
  have h2 := jsMod360 (jsMod a 360 + 360)
  rw [normalizeAngle]
  exact ⟨h2.2 (by linarith [h1.1]), h2.1.2⟩

/-- The remainder differs from the dividend by an integer multiple of
the divisor. -/
theorem jsMod_coset (a b : ℚ) : ∃ j : ℤ, a - jsMod a b = b * j :=
  ⟨ratTrunc (a / b), by rw [jsMod]; ring⟩

/-- Normalization changes the angle by an integer multiple of 360. -/
theorem normalizeAngle_coset (a : ℚ) : ∃ j : ℤ, a - normalizeAngle a = 360 * j := by
  obtain ⟨j1, hj1⟩ := jsMod_coset a 360
  obtain ⟨j2, hj2⟩ := jsMod_coset (jsMod a 360 + 360) 360
  refine ⟨j1 + j2 - 1, ?_⟩
  rw [normalizeAngle]
  push_cast
  linarith

/-- Normalization is invariant under full turns. -/
theorem normalizeAngle_periodic (a : ℚ) (k : ℤ) :
    normalizeAngle (a + 360 * k) = normalizeAngle a := by
  obtain ⟨j1, hj1⟩ := normalizeAngle_coset (a + 360 * k)
  obtain ⟨j2, hj2⟩ := normalizeAngle_coset a
  have hb1 := normalizeAngle_bounds (a + 360 * k)
  have hb2 := normalizeAngle_bounds a
  have hdiff : normalizeAngle a - normalizeAngle (a + 360 * k) =
      360 * ((j1 - k - j2 : ℤ) : ℚ) := by
    push_cast
    linarith
  have hj0 : j1 - k - j2 = 0 := by
    by_contra hne
    have hlt : ((j1 - k - j2 : ℤ) : ℚ) < 1 := by
      nlinarith [hdiff, hb1.1, hb1.2, hb2.1, hb2.2]
    have hgt : (-1 : ℚ) < ((j1 - k - j2 : ℤ) : ℚ) := by
      nlinarith [hdiff, hb1.1, hb1.2, hb2.1, hb2.2]
    have hlt2 : j1 - k - j2 < 1 := by exact_mod_cast hlt
    have hgt2 : (-1 : ℤ) < j1 - k - j2 := by exact_mod_cast hgt
    omega
  rw [hj0] at hdiff
  push_cast at hdiff
  linarith

/-! ### The claims -/

/-- C1: for every list of color stops, regardless of insertion order, the
rendered CSS gradient string lists the stops in non-decreasing order of
their position field: the string formats `sortStops` of the stop list,
whose position column is sorted; in particular for stops with positions
`[80, 10, 50]` the rendered string lists them in order 10, 50, 80. -/
theorem C1_render_sorted :
    (∀ (a : ℤ) (l : List ColorStop), gradientString a l = mkGradient a (sortStops l)) ∧
    (∀ l : List ColorStop, ((sortStops l).map ColorStop.position).Sorted (· ≤ ·)) ∧
    gradientString 90 [⟨"#A", 80, "1"⟩, ⟨"#B", 10, "2"⟩, ⟨"#C", 50, "3"⟩] =
      "linear-gradient(90deg, #B 10%, #C 50%, #A 80%)" := by
  refine ⟨fun a l => rfl, fun l => ?_, ?_⟩
  · have h := List.sorted_insertionSort stopLE l
    exact List.pairwise_map.mpr h
  · norm_num [gradientString, mkGradient, sortStops, stopLE, numRepr,
      List.insertionSort, List.orderedInsert]
    rfl

/-- C2 (amended): computing the gradient string sorts the stored stops
array in place — the string is the canonical formatting, the angle is
untouched, the stored array afterwards is a permutation of the previous
one sorted by ascending position with ties keeping prior relative order
(stability), and rendering again changes nothing — but the stored
array's element order is not in general unchanged. -/
theorem C2_render_inplace_stable_sort (s : EditorState) :
    (renderStep s).1 = gradientString s.angle s.stops ∧
    (renderStep s).2.angle = s.angle ∧
    (renderStep s).2.stops.Perm s.stops ∧
    ((renderStep s).2.stops.map ColorStop.position).Sorted (· ≤ ·) ∧
    (∀ a b : ColorStop, stopLE a b → [a, b].Sublist s.stops →
      [a, b].Sublist (renderStep s).2.stops) ∧
    (renderStep (renderStep s).2).1 = (renderStep s).1 ∧
    (renderStep (renderStep s).2).2 = (renderStep s).2 := by
  have hsorted := List.sorted_insertionSort stopLE s.stops
  have hidem : sortStops (sortStops s.stops) = sortStops s.stops :=
    List.Sorted.insertionSort_eq hsorted
  refine ⟨rfl, rfl, List.perm_insertionSort stopLE s.stops, List.pairwise_map.mpr hsorted,
    fun a b hab hsub => List.pair_sublist_insertionSort hab hsub, ?_, ?_⟩
  · show mkGradient s.angle (sortStops (sortStops s.stops)) = mkGradient s.angle (sortStops s.stops)
    rw [hidem]
  · show ({ s with stops := sortStops (sortStops s.stops) } : EditorState) =
      { s with stops := sortStops s.stops }
    rw [hidem]

/-- C2 counterexample: with stops stored in order of positions
`[80, 10, 50]`, computing the gradient string leaves the stored stops
array changed (it is now sorted), refuting "leaves the stored stops
array, including its element order, unchanged". -/
theorem C2_render_mutates_stored_stops :
    (renderStep ⟨90, [⟨"#A", 80, "1"⟩, ⟨"#B", 10, "2"⟩, ⟨"#C", 50, "3"⟩], 1⟩).2.stops ≠
      [⟨"#A", 80, "1"⟩, ⟨"#B", 10, "2"⟩, ⟨"#C", 50, "3"⟩] := by
  intro h
  have h2 := congrArg (List.map ColorStop.position) h
  norm_num [renderStep, sortStops, stopLE, List.insertionSort, List.orderedInsert] at h2

/-- C2 witness: the amended statement instantiated at the stop list with
positions `[80, 10, 50]` — the ascending pair keeps its order and the
post-render array is a permutation of the original. -/
theorem C2_render_inplace_stable_sort_witness :
    List.Sublist [(⟨"#B", 10, "2"⟩ : ColorStop), ⟨"#C", 50, "3"⟩]
      (renderStep ⟨90, [⟨"#A", 80, "1"⟩, ⟨"#B", 10, "2"⟩, ⟨"#C", 50, "3"⟩], 1⟩).2.stops ∧
    (renderStep ⟨90, [⟨"#A", 80, "1"⟩, ⟨"#B", 10, "2"⟩, ⟨"#C", 50, "3"⟩], 1⟩).2.stops.Perm
      [⟨"#A", 80, "1"⟩, ⟨"#B", 10, "2"⟩, ⟨"#C", 50, "3"⟩] :=
  ⟨(C2_render_inplace_stable_sort ⟨90, [⟨"#A", 80, "1"⟩, ⟨"#B", 10, "2"⟩, ⟨"#C", 50, "3"⟩], 1⟩).2.2.2.2.1
      _ _ (by norm_num [stopLE]) ((List.Sublist.refl _).cons _),
   (C2_render_inplace_stable_sort ⟨90, [⟨"#A", 80, "1"⟩, ⟨"#B", 10, "2"⟩, ⟨"#C", 50, "3"⟩], 1⟩).2.2.1⟩

/-- C3 (amended): for a stop id that is present in the stop set (with
pairwise-distinct ids), `removeColorStop` reports the minimum-stops error
and leaves the state unchanged exactly when removal would leave fewer
than 2 stops, and otherwise removes exactly that one stop, keeping the
angle; for an absent id the code's guard `length ≤ 2` still reports the
error even though removal would not reduce the count (see the
counterexample). -/
theorem C3_removeStop_present_id_guard (s : EditorState) (stopId : String)
    (st : ColorStop) (hst : st ∈ s.stops) (hid : st.id = stopId)
    (hnd : (s.stops.map ColorStop.id).Nodup) :
    ((removeColorStop stopId s).2 = true ↔
      (s.stops.filter fun t => t.id ≠ stopId).length < 2) ∧
    ((removeColorStop stopId s).2 = true → (removeColorStop stopId s).1 = s) ∧
    ((removeColorStop stopId s).2 = false →
      (removeColorStop stopId s).1.stops = s.stops.filter (fun t => t.id ≠ stopId) ∧
      (removeColorStop stopId s).1.stops.length + 1 = s.stops.length ∧
      (removeColorStop stopId s).1.angle = s.angle) := by
  have hlen := filter_id_length_of_mem hnd hst hid
  by_cases hguard : s.stops.length ≤ 2
  · rw [removeColorStop, if_pos hguard]
    refine ⟨?_, fun _ => rfl, ?_⟩
    · exact ⟨fun _ => by omega, fun _ => rfl⟩
    · intro hfalse
      exact absurd hfalse (by simp)
  · rw [removeColorStop, if_neg hguard]
    refine ⟨?_, ?_, ?_⟩
    · exact ⟨fun htrue => absurd htrue (by simp), fun hlt => absurd hlt (by omega)⟩
    · intro htrue
      exact absurd htrue (by simp)
    · intro hfalse
      exact ⟨rfl, by simpa using hlen, rfl⟩

/-- C3 counterexample: in the initial 2-stop state, removing the absent
id `"3"` would leave the stop count at 2 — not fewer than 2 — yet the
code still reports the minimum-stops error, because its guard tests the
current count, not the resulting one. -/
theorem C3_removeStop_absent_id_error :
    ¬ ((initialState.stops.filter fun t => t.id ≠ "3").length < 2) ∧
    (removeColorStop ("3") initialState).2 = true := by
  constructor
  · decide
  · rfl

/-- C3 witness: removing a present id from a 3-stop state succeeds and
drops exactly one stop. -/
theorem C3_removeStop_present_id_guard_witness :
    (removeColorStop ("1")
      ⟨90, [⟨"#4A90E2", 0, "1"⟩, ⟨"#50E3C2", 100, "2"⟩, ⟨"#FFFFFF", 50, "uu"⟩], 2⟩).1.stops.length + 1 = 3 :=
  ((C3_removeStop_present_id_guard
      ⟨90, [⟨"#4A90E2", 0, "1"⟩, ⟨"#50E3C2", 100, "2"⟩, ⟨"#FFFFFF", 50, "uu"⟩], 2⟩
      ("1") ⟨"#4A90E2", 0, "1"⟩ (List.Mem.head _) rfl (by decide)).2.2 rfl).2.1

/-- C4: the initial state has exactly 2 stops, and every state reachable
from it through the store's operations (angle update, slider-click stop
insertion, color update, drag position update, stop removal) keeps at
least 2 color stops. -/
theorem C4_min_two_stops :
    initialState.stops.length = 2 ∧
    ∀ s : EditorState, Reachable s → 2 ≤ s.stops.length :=
  ⟨rfl, fun _ h => (reachable_inv h).1⟩

/-- C4 witness: the invariant evaluated on a concrete reachable state. -/
theorem C4_min_two_stops_witness :
    2 ≤ (handleSliderClick 50 0 100 initialState).stops.length :=
  C4_min_two_stops.2 _ (Reachable.add 50 0 100 Reachable.init)

/-- C5 (amended): the angle update normalizes its input by
`((a % 360) + 360) % 360`, which lands in `[0, 360)`, and updating with
`a` and with `a + 360 k` stores the same value; but the stored angle is
`Math.round` of the normalized value and therefore lies in `[0, 360]` —
the right endpoint 360 is attained (see the counterexample), so the
stored angle is not always in `[0, 360)`. -/
theorem C5_angle_normalization (a : ℚ) (k : ℤ) (s : EditorState) :
    (handleAngleChange a s).angle = jsRound (normalizeAngle a) ∧
    0 ≤ normalizeAngle a ∧ normalizeAngle a < 360 ∧
    0 ≤ (handleAngleChange a s).angle ∧ (handleAngleChange a s).angle ≤ 360 ∧
    handleAngleChange (a + 360 * k) s = handleAngleChange a s ∧
    (handleAngleChange a s).stops = s.stops := by
  have hb := normalizeAngle_bounds a
  refine ⟨rfl, hb.1, hb.2, ?_, ?_, ?_, rfl⟩
  · show (0 : ℤ) ≤ jsRound (normalizeAngle a)
    rw [jsRound]
    exact Int.le_floor.mpr (by push_cast; linarith)
  · show jsRound (normalizeAngle a) ≤ 360
    rw [jsRound]
    have h := Int.floor_lt.mpr (show normalizeAngle a + 1 / 2 < ((361 : ℤ) : ℚ) by push_cast; linarith)
    omega
  · show ({ s with angle := jsRound (normalizeAngle (a + 360 * k)) } : EditorState) = _
    rw [normalizeAngle_periodic]
    rfl

/-- C5 counterexample: the raw angle `-0.2` (reachable, e.g., from a
pointer slightly left of straight up) normalizes to `359.8`, and
`Math.round` stores `360`, which is not in `[0, 360)`. -/
theorem C5_angle_rounds_to_360 :
    (handleAngleChange (-1 / 5) initialState).angle = 360 ∧
    ¬ ((handleAngleChange (-1 / 5) initialState).angle < 360) := by
  have h1 : jsMod (-1 / 5 : ℚ) 360 = -1 / 5 := by
    rw [jsMod, ratTrunc, if_neg (by norm_num)]
    norm_num
  have h2 : normalizeAngle (-1 / 5 : ℚ) = 1799 / 5 := by
    rw [normalizeAngle, h1, show (-1 / 5 + 360 : ℚ) = 1799 / 5 by norm_num, jsMod, ratTrunc,
      if_pos (by norm_num)]
    norm_num
  have h3 : (handleAngleChange (-1 / 5) initialState).angle = 360 := by
    show jsRound (normalizeAngle (-1 / 5)) = 360
    rw [h2, jsRound]
    norm_num
  exact ⟨h3, by omega⟩

/-- C6: for every rectangle with positive width, the pointer-to-percent
mapping is monotonically non-decreasing in the pointer coordinate,
saturates at exactly 0 for coordinates at or left of the rectangle, and
at exactly 100 at or right of it. -/
theorem C6_pointerToPercent_monotone_saturates (rectLeft rectWidth : ℚ)
    (hw : 0 < rectWidth) :
    (∀ x1 x2 : ℚ, x1 ≤ x2 →
      pointerToPercent x1 rectLeft rectWidth ≤ pointerToPercent x2 rectLeft rectWidth) ∧
    (∀ x : ℚ, x ≤ rectLeft → pointerToPercent x rectLeft rectWidth = 0) ∧
    (∀ x : ℚ, rectLeft + rectWidth ≤ x → pointerToPercent x rectLeft rectWidth = 100) := by
  refine ⟨?_, ?_, ?_⟩
  · intro x1 x2 hx
    have hdiv : (x1 - rectLeft) / rectWidth * 100 ≤ (x2 - rectLeft) / rectWidth * 100 := by
      gcongr
    exact max_le_max (le_refl 0) (min_le_min (le_refl 100) hdiv)
  · intro x hx
    have hv : (x - rectLeft) / rectWidth * 100 ≤ 0 := by
      apply mul_nonpos_of_nonpos_of_nonneg
      · exact div_nonpos_of_nonpos_of_nonneg (by linarith) hw.le
      · norm_num
    rw [pointerToPercent, min_eq_right (by linarith), max_eq_left (by linarith)]
  · intro x hx
    have hv : (100 : ℚ) ≤ (x - rectLeft) / rectWidth * 100 := by
      have h1 : (1 : ℚ) ≤ (x - rectLeft) / rectWidth := by
        rw [le_div_iff₀ hw]
        linarith
      nlinarith
    rw [pointerToPercent, min_eq_left hv, max_eq_right (by norm_num)]

/-- C6 witness: the mapping evaluated on a 100-wide rectangle at 0:
saturation below, saturation above, and monotonicity inside. -/
theorem C6_pointerToPercent_monotone_saturates_witness :
    pointerToPercent (-7) 0 100 = 0 ∧ pointerToPercent 250 0 100 = 100 ∧
    pointerToPercent 30 0 100 ≤ pointerToPercent 55 0 100 :=
  ⟨(C6_pointerToPercent_monotone_saturates 0 100 (by norm_num)).2.1 (-7) (by norm_num),
   (C6_pointerToPercent_monotone_saturates 0 100 (by norm_num)).2.2 250 (by norm_num),
   (C6_pointerToPercent_monotone_saturates 0 100 (by norm_num)).1 30 55 (by norm_num)⟩

/-- C7: with a zero-width bounding rectangle and the pointer at the
rectangle's left edge, the drag computation is `(0 / 0) * 100 = NaN`,
`Math.min`/`Math.max` propagate the `NaN`, and `handleStopDrag` stores it
as the dragged stop's position — the code neither no-ops nor stores 0,
contradicting the claim (and the spec's *DegenerateGeometry* rule). -/
theorem C7_zero_width_propagates_nan :
    pointerToPercentJS (.num 0) (.num 0) (.num 0) = .nan ∧
    handleStopDragJS (.num 0) (.num 0) (.num 0) ("1")
        [⟨"#4A90E2", .num 0, "1"⟩, ⟨"#50E3C2", .num 100, "2"⟩] =
      [⟨"#4A90E2", .nan, "1"⟩, ⟨"#50E3C2", .num 100, "2"⟩] ∧
    JSNum.nan ≠ .num 0 := by
  have hdiv : pointerToPercentJS (.num 0) (.num 0) (.num 0) = .nan := by
    norm_num [pointerToPercentJS, jsSub, jsDiv, jsMul, jsMin, jsMax]
  refine ⟨hdiv, ?_, by simp⟩
  rw [handleStopDragJS]
  norm_num [hdiv]
  intro h
  exact absurd h (by decide)

/-- C8: updating the color or the position of a stop id that is not
present is a silent no-op — the stop list is returned unchanged. -/
theorem C8_unknown_id_silent_noop (stops : List ColorStop) (stopId color : String)
    (clientX rectLeft rectWidth : ℚ)
    (h : ∀ st ∈ stops, st.id ≠ stopId) :
    handleColorChange color stopId stops = stops ∧
    handleStopDrag clientX rectLeft rectWidth stopId stops = stops := by
  constructor
  · rw [handleColorChange]
    conv_rhs => rw [← List.map_id stops]
    exact List.map_congr_left fun t ht => by rw [if_neg (h t ht)]; rfl
  · rw [handleStopDrag]
    conv_rhs => rw [← List.map_id stops]
    exact List.map_congr_left fun t ht => by rw [if_neg (h t ht)]; rfl

/-- C8 witness: updating the absent id `"3"` in the initial stop list
changes nothing. -/
theorem C8_unknown_id_silent_noop_witness :
    handleColorChange ("#000000") ("3") initialStops = initialStops ∧
    handleStopDrag 50 0 100 ("3") initialStops = initialStops :=
  C8_unknown_id_silent_noop initialStops ("3") ("#000000") 50 0 100 (by decide)

/-- C9 counterexample: a slider click whose coordinate lies past the
right edge of a 100-wide rectangle stores a stop with position 200,
outside `[0, 100]` — `handleSliderClick` does not clamp. -/
theorem C9_sliderClick_unclamped :
    ((handleSliderClick 200 0 100 initialState).stops.map ColorStop.position) =
      [0, 100, 200] ∧ ¬ ((200 : ℚ) ≤ 100) := by
  constructor
  · norm_num [handleSliderClick, initialState, initialStops]
  · norm_num

/-- C9 (amended): for a positive-width rectangle — where the `ℚ`
embedding of the arithmetic is faithful — the drag update clamps the new
position into `[0, 100]` and so preserves the range invariant (at
`rectWidth = 0` the source instead stores the IEEE result, `NaN`, as the
C7 analysis shows); the slider-click stop's position is
`((clientX - rectLeft) / rectWidth) * 100` unclamped, and the range
invariant is preserved only under the geometric condition that the click
coordinate lies inside the rectangle. -/
theorem C9_position_range (clientX rectLeft rectWidth : ℚ) (stopId : String)
    (s : EditorState) (hw : 0 < rectWidth)
    (hall : ∀ st ∈ s.stops, 0 ≤ st.position ∧ st.position ≤ 100) :
    (∀ st ∈ handleStopDrag clientX rectLeft rectWidth stopId s.stops,
      0 ≤ st.position ∧ st.position ≤ 100) ∧
    (rectLeft ≤ clientX → clientX ≤ rectLeft + rectWidth →
      ∀ st ∈ (handleSliderClick clientX rectLeft rectWidth s).stops,
        0 ≤ st.position ∧ st.position ≤ 100) := by
  have hclamp : 0 ≤ pointerToPercent clientX rectLeft rectWidth ∧
      pointerToPercent clientX rectLeft rectWidth ≤ 100 := by
    constructor
    · exact le_max_left 0 _
    · rw [pointerToPercent]
      exact max_le (by norm_num) (min_le_left _ _)
  constructor
  · intro st hst
    obtain ⟨t, ht, hts⟩ := List.mem_map.mp hst
    by_cases h : t.id = stopId
    · rw [← hts, if_pos h]
      exact hclamp
    · rw [← hts, if_neg h]
      exact hall t ht
  · intro h0 h1 st hst
    simp only [handleSliderClick] at hst
    rcases List.mem_append.mp hst with hmem | hnew
    · exact hall st hmem
    · rw [List.mem_singleton] at hnew
      subst hnew
      constructor
      · exact mul_nonneg (div_nonneg (by linarith) hw.le) (by norm_num)
      · show (clientX - rectLeft) / rectWidth * 100 ≤ 100
        have hle : (clientX - rectLeft) / rectWidth ≤ 1 := (div_le_one hw).mpr (by linarith)
        nlinarith

/-- C9 witness: after a click inside the rectangle, the range fact
instantiated at the first stored stop. -/
theorem C9_position_range_witness :
    0 ≤ (⟨"#4A90E2", 0, "1"⟩ : ColorStop).position ∧
    (⟨"#4A90E2", 0, "1"⟩ : ColorStop).position ≤ 100 :=
  (C9_position_range 60 0 100 ("1") initialState (by norm_num)
    (by norm_num [initialState, initialStops])).2
    (by norm_num) (by norm_num)
    ⟨"#4A90E2", 0, "1"⟩ (List.mem_append_left _ (List.Mem.head _))

/-- C10: the numeric position input's handler computes a clamped position
into an unused local and then calls the color updater with the stop's
existing color and id, so for any entered value the stop list — hence the
gradient state — is left entirely unchanged (for a stop that is a member
of the list, with pairwise-distinct ids, as rendered stops are). -/
theorem C10_position_input_noop (value : ℚ) (stop : ColorStop)
    (stops : List ColorStop) (hmem : stop ∈ stops)
    (hnd : (stops.map ColorStop.id).Nodup) :
    positionInputChange value stop stops = stops := by
  rw [positionInputChange, handleColorChange]
  conv_rhs => rw [← List.map_id stops]
  refine List.map_congr_left fun t ht => ?_
  by_cases h : t.id = stop.id
  · have heq : t = stop := List.inj_on_of_nodup_map hnd ht hmem h
    subst heq
    rw [if_pos h]
    rfl
  · rw [if_neg h]
    rfl

/-- C10 witness: typing 42 into the position field of the first initial
stop leaves the stop list unchanged. -/
theorem C10_position_input_noop_witness :
    positionInputChange 42 ⟨"#4A90E2", 0, "1"⟩ initialStops = initialStops :=
  C10_position_input_noop 42 ⟨"#4A90E2", 0, "1"⟩ initialStops (List.Mem.head _) (by decide)
